import Mathlib

/-!
Shallow embedding of `src/icp_rust_boilerplate_backend/src/lib.rs`, an ICP
canister maintaining a stable BTree map of `Expense` records together with a
monotonically incremented id counter, and proofs of the specification claims
about it.

Modelling conventions:
* `u64` / `usize` values are `Nat`; arithmetic that can overflow in the Rust
  release build is written with an explicit `% 2^64` wrap.
* Rust `f64` amounts are modelled by `F64`: either a rational value or `nan`.
  The claims about amounts only use `f64` comparisons (`<=`, `partial_cmp`),
  which this model reflects faithfully: every comparison involving `nan`
  has `partial_cmp = none`, and `<=` is `false`.
* The `StableBTreeMap` is an association list ordered by ascending key, the
  iteration order of the Rust map.
* `ic_cdk::api::time()` is passed in as an explicit `now` argument.
* A Rust panic (`unwrap` of `None` in the sort comparator) is modelled by an
  `Option` result: `none` means the call panics.
-/

/-- Model of Rust `f64` restricted to what the program observes: a rational
value or the not-a-number value. -/
inductive F64 where
  | num (q : ℚ)
  | nan
deriving DecidableEq

/-- Rust `<=` on `f64` (`PartialOrd::le`): comparisons involving `nan` are
`false`. -/
def F64.leb : F64 → F64 → Bool
  | .num a, .num b => decide (a ≤ b)
  | _, _ => false

/-- Three-way comparison on rationals, as produced by `partial_cmp` on two
non-`nan` doubles. -/
def cmpQ (a b : ℚ) : Ordering :=
  if a < b then .lt else if b < a then .gt else .eq

/-- Rust `partial_cmp` on `f64`: `none` exactly when an operand is `nan`. -/
def cmpF64 : F64 → F64 → Option Ordering
  | .num a, .num b => some (cmpQ a b)
  | _, _ => none

/-- The stored record (`struct Expense` in the source). -/
structure Expense where
  id : Nat
  description : String
  amount : F64
  date : Nat
  created_at : Nat
  updated_at : Option Nat
deriving DecidableEq

/-- The creation/update input (`struct ExpensePayload` in the source). -/
structure ExpensePayload where
  description : String
  amount : F64
  date : Nat
deriving DecidableEq

/-- The error enum of the source. -/
inductive Error where
  | NotFound (msg : String)
  | InvalidInput (msg : String)
deriving DecidableEq

/-- The whole canister state: the `ID_COUNTER` cell and the `STORAGE` map,
the latter as an association list in ascending key order (the iteration
order of `StableBTreeMap`). -/
structure CanisterState where
  counter : Nat
  storage : List (Nat × Expense)
deriving DecidableEq

/-- The state at first startup: counter `0`, empty map. -/
def initState : CanisterState := ⟨0, []⟩

/-- `StableBTreeMap::get`. -/
def mapGet (k : Nat) : List (Nat × Expense) → Option Expense
  | [] => none
  | (k', v) :: rest => if k = k' then some v else mapGet k rest

/-- `StableBTreeMap::insert`: upsert preserving ascending key order. -/
def mapInsert (k : Nat) (v : Expense) : List (Nat × Expense) → List (Nat × Expense)
  | [] => [(k, v)]
  | (k', v') :: rest =>
    if k < k' then (k, v) :: (k', v') :: rest
    else if k = k' then (k, v) :: rest
    else (k', v') :: mapInsert k v rest

/-- `StableBTreeMap::remove`: returns the removed value (if any) and the
remaining map. -/
def mapRemove (k : Nat) : List (Nat × Expense) → Option Expense × List (Nat × Expense)
  | [] => (none, [])
  | (k', v) :: rest =>
    if k = k' then (some v, rest)
    else
      let r := mapRemove k rest
      (r.1, (k', v) :: r.2)

/-- Width of `u64` / `usize`. -/
def U64MOD : Nat := 2 ^ 64

/-- Helper `do_insert` of the source: insert keyed by the record's own id. -/
def do_insert (e : Expense) (st : CanisterState) : CanisterState :=
  { st with storage := mapInsert e.id e st.storage }

/-- Helper `_get_expense` of the source. -/
def getExpenseOpt (id : Nat) (st : CanisterState) : Option Expense :=
  mapGet id st.storage

/-- Query `get_expense` of the source. -/
def get_expense (id : Nat) (st : CanisterState) : Except Error Expense :=
  match getExpenseOpt id st with
  | some e => .ok e
  | none => .error (.NotFound ("Expense with id=" ++ toString id ++ " not found"))

/-- The validation performed inline by `add_expense` and `update_expense`:
first the amount check, then the emptiness check. The source checks neither
whitespace-only descriptions nor `date == 0`. -/
def validatePayload (p : ExpensePayload) : Option Error :=
  if F64.leb p.amount (F64.num 0) then
    some (.InvalidInput "Amount must be greater than zero")
  else if p.description.isEmpty then
    some (.InvalidInput "Description cannot be empty")
  else none

/-- Update `add_expense` of the source: validate, read-and-increment the
counter (u64 wrap-around on the increment), build the record, insert it. -/
def add_expense (now : Nat) (p : ExpensePayload) (st : CanisterState) :
    Except Error Expense × CanisterState :=
  match validatePayload p with
  | some e => (.error e, st)
  | none =>
    let id := st.counter
    let st' : CanisterState := { st with counter := (st.counter + 1) % U64MOD }
    let e : Expense :=
      { id := id, description := p.description, amount := p.amount,
        date := p.date, created_at := now, updated_at := none }
    (.ok e, do_insert e st')

/-- Update `update_expense` of the source: validate, look up, overwrite the
payload fields, stamp `updated_at`, re-insert. -/
def update_expense (now : Nat) (id : Nat) (p : ExpensePayload) (st : CanisterState) :
    Except Error Expense × CanisterState :=
  match validatePayload p with
  | some e => (.error e, st)
  | none =>
    match mapGet id st.storage with
    | some old =>
      let e : Expense :=
        { old with description := p.description, amount := p.amount,
                   date := p.date, updated_at := some now }
      (.ok e, do_insert e st)
    | none =>
      (.error (.NotFound ("Couldn\x27t update expense with id=" ++ toString id ++
        ". Expense not found.")), st)

/-- Update `delete_expense` of the source. -/
def delete_expense (id : Nat) (st : CanisterState) :
    Except Error Expense × CanisterState :=
  match mapRemove id st.storage with
  | (some e, storage') => (.ok e, { st with storage := storage' })
  | (none, _) =>
    (.error (.NotFound ("Couldn\x27t delete expense with id=" ++ toString id ++
      ". Expense not found.")), st)

/-- Full iteration of the store, in map (ascending-key) order; the list every
query function of the source starts from. -/
def allExpenses (st : CanisterState) : List Expense :=
  st.storage.map (·.2)

/-- Wrapping `usize` subtraction of 1: `page - 1` as the Rust release build
computes it (`0 - 1` wraps to `2^64 - 1`). Defined for `page < 2^64`. -/
def subOneWrap (page : Nat) : Nat :=
  (page + (U64MOD - 1)) % U64MOD

/-- Query `get_paginated_expenses` of the source:
`skip((page-1)*per_page).take(per_page)` with `usize` wrap-around in the
offset computation. -/
def get_paginated_expenses (page per_page : Nat) (st : CanisterState) : List Expense :=
  let start := (subOneWrap page * per_page) % U64MOD
  ((allExpenses st).drop start).take per_page

/-- Is the result an `InvalidInput` error? -/
def isInvalidInput : Except Error Expense → Bool
  | .error (.InvalidInput _) => true
  | _ => false

/-- Is the result `Ok`? -/
def isOk : Except Error Expense → Bool
  | .ok _ => true
  | _ => false

/-- Looking up the key just inserted returns the inserted value. -/
theorem mapGet_mapInsert_self (k : Nat) (v : Expense) (l : List (Nat × Expense)) :
    mapGet k (mapInsert k v l) = some v := by
  induction l with
  | nil => simp [mapInsert, mapGet]
  | cons hd tl ih =>
    obtain ⟨k', v'⟩ := hd
    by_cases h1 : k < k'
    · simp [mapInsert, h1, mapGet]
    · by_cases h2 : k = k'
      · simp [mapInsert, h1, h2, mapGet]
      · simp [mapInsert, h1, h2, mapGet, ih]

/-- Example payload: valid in the source's sense. -/
def pEx : ExpensePayload := ⟨"lunch", F64.num 10, 1⟩

/-- The record `add_expense 5 pEx initState` creates. -/
def eEx : Expense := ⟨0, "lunch", F64.num 10, 1, 5, none⟩

/-- C3, counterexample: a payload whose description is all-whitespace (`" "`)
and whose date is `0` is accepted by `add_expense` (the source checks only
`amount <= 0.0` and `description.is_empty()`), contradicting the claim that
such payloads yield `InvalidInput`. -/
theorem C3_counterexample :
    isInvalidInput (add_expense 5 ⟨" ", F64.num 1, 0⟩ initState).1 = false ∧
    (add_expense 5 ⟨" ", F64.num 1, 0⟩ initState).1 =
      .ok ⟨0, " ", F64.num 1, 0, 5, none⟩ := by
  constructor <;> rfl

/-- C3, amended: `add_expense` returns `InvalidInput` exactly when the
amount is `<= 0.0` in the `f64` sense (false for `nan`) or the description
is the empty string; whitespace-only descriptions and `date = 0` are
accepted. -/
theorem C3_validation (now : Nat) (p : ExpensePayload) (st : CanisterState) :
    isInvalidInput (add_expense now p st).1 =
      (F64.leb p.amount (F64.num 0) || p.description.isEmpty) := by
  unfold add_expense validatePayload
  by_cases h1 : F64.leb p.amount (F64.num 0)
  · simp [h1, isInvalidInput]
  · by_cases h2 : p.description.isEmpty
    · simp [h1, h2, isInvalidInput]
    · simp [h1, h2, isInvalidInput]

/-- C4: the source does not reject `page = 0`. On a one-record store,
`get_paginated_expenses 0 1` wraps the offset to `2^64 - 1` and returns the
empty list (in a debug build the subtraction would panic); the function's
return type has no error channel, so the `InvalidInput` the claim requires
cannot be produced. -/
theorem C4_page_zero_underflow :
    get_paginated_expenses 0 1 (add_expense 7 ⟨"x", F64.num 2, 3⟩ initState).2 = [] ∧
    get_paginated_expenses 1 1 (add_expense 7 ⟨"x", F64.num 2, 3⟩ initState).2 =
      [⟨0, "x", F64.num 2, 3, 7, none⟩] := by
  constructor <;> rfl

/-- When validation passes, `add_expense` returns the freshly built record
and the state with the counter bumped (with u64 wrap) and the record
inserted. -/
theorem add_expense_eq_of_valid (now : Nat) (p : ExpensePayload) (st : CanisterState)
    (hv : validatePayload p = none) :
    add_expense now p st =
      (.ok ⟨st.counter, p.description, p.amount, p.date, now, none⟩,
       ⟨(st.counter + 1) % U64MOD,
        mapInsert st.counter ⟨st.counter, p.description, p.amount, p.date, now, none⟩
          st.storage⟩) := by
  simp only [add_expense, hv, do_insert]

/-- An `Ok` result of `add_expense` implies the payload passed validation. -/
theorem add_expense_valid_of_ok (now : Nat) (p : ExpensePayload) (st : CanisterState)
    (e : Expense) (h : (add_expense now p st).1 = .ok e) :
    validatePayload p = none := by
  cases hv : validatePayload p with
  | some err => simp only [add_expense, hv] at h; simp at h
  | none => rfl

/-- C6: when `add_expense` returns `Ok e`, looking `e.id` up in the resulting
state returns exactly `e`, whose `created_at` is the creation time and whose
`updated_at` is `none`. -/
theorem C6_create_then_get (now : Nat) (p : ExpensePayload) (st : CanisterState)
    (e : Expense) (h : (add_expense now p st).1 = .ok e) :
    get_expense e.id (add_expense now p st).2 = .ok e ∧
    e.created_at = now ∧ e.updated_at = none := by
  have hv : validatePayload p = none := add_expense_valid_of_ok now p st e h
  rw [add_expense_eq_of_valid now p st hv] at h ⊢
  simp only [Except.ok.injEq] at h
  subst h
  refine ⟨?_, rfl, rfl⟩
  simp [get_expense, getExpenseOpt, mapGet_mapInsert_self]

/-- C6, witness at a concrete input. -/
theorem C6_witness :
    get_expense eEx.id (add_expense 5 pEx initState).2 = .ok eEx ∧
    eEx.created_at = 5 ∧ eEx.updated_at = none :=
  C6_create_then_get 5 pEx initState eEx (by rfl)

/-- C10: a call of `add_expense` or `update_expense` that does not return
`Ok` leaves the state (counter and storage) exactly as it was: validation
and lookup happen before the counter increment and before any insertion. -/
theorem C10_error_leaves_state (now : Nat) (p : ExpensePayload) (st : CanisterState) :
    (∀ id : Nat,
      isOk (update_expense now id p st).1 = true ∨ (update_expense now id p st).2 = st) ∧
    (isOk (add_expense now p st).1 = true ∨ (add_expense now p st).2 = st) := by
  constructor
  · intro id
    unfold update_expense
    cases hv : validatePayload p with
    | some err => simp
    | none =>
      cases hg : mapGet id st.storage with
      | some old => simp [isOk]
      | none => simp
  · unfold add_expense
    cases hv : validatePayload p with
    | some err => simp
    | none => simp [isOk]

/-- C7: when the target id is present (stored under its own id, as every
record the program stores is) and the payload passes validation,
`update_expense` succeeds; the record read back afterwards carries the
payload's fields, the old record's `id` and `created_at`, and an
`updated_at` stamp at least the invocation time. -/
theorem C7_update_then_get (now X : Nat) (p : ExpensePayload) (st : CanisterState)
    (old : Expense) (hget : mapGet X st.storage = some old) (hid : old.id = X)
    (hv : validatePayload p = none) :
    ∃ e, (update_expense now X p st).1 = .ok e ∧
      get_expense X (update_expense now X p st).2 = .ok e ∧
      e.description = p.description ∧ e.amount = p.amount ∧ e.date = p.date ∧
      e.id = old.id ∧ e.created_at = old.created_at ∧
      ∃ t, e.updated_at = some t ∧ now ≤ t := by
  refine ⟨{ old with
              description := p.description,
              amount := p.amount,
              date := p.date,
              updated_at := some now }, ?_, ?_, rfl, rfl, rfl, rfl, rfl,
          now, rfl, le_refl now⟩
  · simp only [update_expense, hv, hget]
  · simp only [update_expense, hv, hget, do_insert, get_expense, getExpenseOpt]
    simp only [hid, mapGet_mapInsert_self]

/-- Concrete one-record state used by witnesses. -/
def stEx1 : CanisterState := ⟨1, [(0, eEx)]⟩

/-- C7, witness at a concrete input. -/
theorem C7_witness :
    mapGet 0 stEx1.storage = some eEx ∧ eEx.id = 0 ∧
    validatePayload ⟨"dinner", F64.num 20, 2⟩ = none ∧
    (∃ e, (update_expense 9 0 ⟨"dinner", F64.num 20, 2⟩ stEx1).1 = .ok e ∧
      get_expense 0 (update_expense 9 0 ⟨"dinner", F64.num 20, 2⟩ stEx1).2 = .ok e ∧
      e.description = "dinner" ∧ e.amount = F64.num 20 ∧ e.date = 2 ∧
      e.id = eEx.id ∧ e.created_at = eEx.created_at ∧
      ∃ t, e.updated_at = some t ∧ 9 ≤ t) :=
  ⟨rfl, rfl, rfl, C7_update_then_get 9 0 ⟨"dinner", F64.num 20, 2⟩ stEx1 eEx rfl rfl rfl⟩

/-- An externally invoked mutating call: a creation or a deletion. -/
inductive Op where
  | add (p : ExpensePayload)
  | delete (id : Nat)

/-- Run a sequence of calls against a state; returns the final state and the
ids assigned by the `add_expense` calls that returned `Ok`, in call order
(ids of later-deleted records included). -/
def runOps (st : CanisterState) : List Op → CanisterState × List Nat
  | [] => (st, [])
  | .add p :: rest =>
    match add_expense 0 p st with
    | (.ok e, st') => ((runOps st' rest).1, e.id :: (runOps st' rest).2)
    | (.error _, st') => runOps st' rest
  | .delete i :: rest => runOps (delete_expense i st).2 rest

/-- `delete_expense` never touches the id counter. -/
theorem delete_expense_counter (i : Nat) (st : CanisterState) :
    (delete_expense i st).2.counter = st.counter := by
  unfold delete_expense
  rcases h : mapRemove i st.storage with ⟨e, storage'⟩
  cases e <;> simp

/-- A failed `add_expense` leaves the state unchanged; reformulation of the
validation branch for the trace proofs. -/
theorem add_expense_eq_of_invalid (now : Nat) (p : ExpensePayload) (st : CanisterState)
    (err : Error) (hv : validatePayload p = some err) :
    add_expense now p st = (.error err, st) := by
  simp only [add_expense, hv]

/-- The ids a trace assigns are the consecutive counter values starting at
the initial counter, each reduced mod `2^64`. -/
theorem runOps_ids (ops : List Op) : ∀ st : CanisterState, st.counter < U64MOD →
    (runOps st ops).2 = (List.range (runOps st ops).2.length).map
      (fun k => (st.counter + k) % U64MOD) := by
  induction ops with
  | nil => intro st _; simp [runOps]
  | cons op rest ih =>
    intro st hc
    cases op with
    | add p =>
      cases hv : validatePayload p with
      | some err =>
        simp only [runOps, add_expense_eq_of_invalid 0 p st err hv]
        exact ih st hc
      | none =>
        simp only [runOps, add_expense_eq_of_valid 0 p st hv]
        have hc' : ((st.counter + 1) % U64MOD) < U64MOD :=
          Nat.mod_lt _ (by norm_num [U64MOD])
        have htail := ih ⟨(st.counter + 1) % U64MOD,
          mapInsert st.counter ⟨st.counter, p.description, p.amount, p.date, 0, none⟩
            st.storage⟩ hc'
        simp only [List.length_cons]
        rw [List.range_succ_eq_map, List.map_cons, List.map_map]
        congr 1
        · rw [Nat.add_zero, Nat.mod_eq_of_lt hc]
        · conv_lhs => rw [htail]
          apply List.map_congr_left
          intro a _
          simp only [Function.comp_apply]
          rw [Nat.mod_add_mod]
          congr 1
          omega
    | delete i =>
      simp only [runOps]
      have := ih (delete_expense i st).2 (by rw [delete_expense_counter]; exact hc)
      rw [delete_expense_counter i st] at this
      exact this

/-- C1 (amended): along any call sequence in which at most `2^64` creations
return `Ok` — every sequence that terminates in practice — the assigned ids
are strictly increasing and pairwise distinct, deletions included and ids of
deleted records never reused. -/
theorem C1_ids_strictly_increasing (ops : List Op)
    (h : (runOps initState ops).2.length ≤ U64MOD) :
    (runOps initState ops).2.Pairwise (· < ·) ∧ (runOps initState ops).2.Nodup := by
  have hids := runOps_ids ops initState (by norm_num [initState, U64MOD])
  have heq : ∀ a ∈ List.range (runOps initState ops).2.length,
      (initState.counter + a) % U64MOD = a := by
    intro a ha
    have ha' := List.mem_range.mp ha
    show (0 + a) % U64MOD = a
    rw [Nat.zero_add, Nat.mod_eq_of_lt (lt_of_lt_of_le ha' h)]
  rw [hids, List.map_congr_left heq, List.map_id']
  exact ⟨List.pairwise_lt_range _, List.nodup_range _⟩

/-- Trace used by the C1 witness: create, delete the created record, create
again. -/
def exOps : List Op := [Op.add pEx, Op.delete 0, Op.add pEx]

/-- C1, witness: on the concrete trace add/delete/add the assigned ids are
strictly increasing and distinct. -/
theorem C1_witness :
    (runOps initState exOps).2.length ≤ U64MOD ∧
    ((runOps initState exOps).2.Pairwise (· < ·) ∧ (runOps initState exOps).2.Nodup) :=
  ⟨by decide, C1_ids_strictly_increasing exOps (by decide)⟩

/-- On a trace of `n` valid creations, every creation returns `Ok`, so `n`
ids are assigned. -/
theorem runOps_replicate_length (p : ExpensePayload) (hv : validatePayload p = none)
    (n : Nat) : ∀ st : CanisterState,
    ((runOps st (List.replicate n (Op.add p))).2).length = n := by
  induction n with
  | zero => intro st; simp [runOps]
  | succ m ih =>
    intro st
    rw [List.replicate_succ]
    simp only [runOps, add_expense_eq_of_valid 0 p st hv]
    simp [ih]

/-- C1, counterexample to the unbounded claim: after `2^64 + 1` successful
creations the u64 counter has wrapped, the first and last assigned ids are
both `0`, and the id sequence is neither strictly increasing nor
duplicate-free. -/
theorem C1_counterexample :
    ¬ (((runOps initState (List.replicate (U64MOD + 1) (Op.add pEx))).2.Pairwise (· < ·)) ∧
       (runOps initState (List.replicate (U64MOD + 1) (Op.add pEx))).2.Nodup) := by
  intro hcon
  have hlen := runOps_replicate_length pEx (by decide) (U64MOD + 1) initState
  have hids := runOps_ids (List.replicate (U64MOD + 1) (Op.add pEx)) initState
    (by norm_num [initState, U64MOD])
  rw [hlen] at hids
  have h0 : (0 : Nat) ∈ List.range U64MOD := List.mem_range.mpr (by norm_num [U64MOD])
  have hsplit : (List.range (U64MOD + 1)).map (fun k => (initState.counter + k) % U64MOD)
      = List.range U64MOD ++ [0] := by
    have heq : ∀ a ∈ List.range U64MOD,
        (initState.counter + a) % U64MOD = a := by
      intro a ha
      show (0 + a) % U64MOD = a
      rw [Nat.zero_add, Nat.mod_eq_of_lt (List.mem_range.mp ha)]
    have h1 : (List.range U64MOD).map (fun k => (initState.counter + k) % U64MOD)
        = List.range U64MOD := by
      rw [List.map_congr_left heq, List.map_id']
    have h2 : ([U64MOD].map fun k => (initState.counter + k) % U64MOD) = [0] := by
      show [(initState.counter + U64MOD) % U64MOD] = [0]
      norm_num [initState]
    rw [List.range_succ, List.map_append, h1, h2]
  rw [hids, hsplit] at hcon
  have hp := hcon.1
  rw [List.pairwise_append] at hp
  exact lt_irrefl 0 (hp.2.2 0 h0 0 (by simp))

/-- For `1 <= page < 2^64` the wrapped `page - 1` is the true `page - 1`. -/
theorem subOneWrap_eq (page : Nat) (h1 : 1 ≤ page) (h3 : page < U64MOD) :
    subOneWrap page = page - 1 := by
  unfold subOneWrap U64MOD at *
  omega

/-- C5 (amended): for `page >= 1` and `per_page >= 1` whose offset
`(page-1)*per_page` stays below `2^64` (no `usize` overflow),
`get_paginated_expenses` returns the contiguous slice of the full iteration
starting at that offset, hence exactly
`min per_page (max 0 (N - (page-1)*per_page))` records in iteration order
(the subtraction below is truncated, so it equals the claimed `max 0 (...)`
form). -/
theorem C5_pagination (page per_page : Nat) (st : CanisterState)
    (h1 : 1 ≤ page) (h2 : 1 ≤ per_page) (h3 : page < U64MOD)
    (h4 : (page - 1) * per_page < U64MOD) :
    get_paginated_expenses page per_page st =
      ((allExpenses st).drop ((page - 1) * per_page)).take per_page ∧
    (get_paginated_expenses page per_page st).length =
      min per_page ((allExpenses st).length - (page - 1) * per_page) := by
  have hs : (subOneWrap page * per_page) % U64MOD = (page - 1) * per_page := by
    rw [subOneWrap_eq page h1 h3, Nat.mod_eq_of_lt h4]
  have he : get_paginated_expenses page per_page st =
      ((allExpenses st).drop ((page - 1) * per_page)).take per_page := by
    unfold get_paginated_expenses
    rw [hs]
  refine ⟨he, ?_⟩
  rw [he, List.length_take, List.length_drop]

/-- Three-record state: amounts 5, 15, 10 under ids 0, 1, 2. -/
def e1 : Expense := ⟨0, "a", F64.num 5, 1, 1, none⟩

/-- Second example record. -/
def e2 : Expense := ⟨1, "b", F64.num 15, 1, 1, none⟩

/-- Third example record. -/
def e3 : Expense := ⟨2, "c", F64.num 10, 1, 1, none⟩

/-- A well-formed three-record store. -/
def stEx3 : CanisterState := ⟨3, [(0, e1), (1, e2), (2, e3)]⟩

/-- C5, witness: page 2 of size 1 on the three-record store is the second
record, and the length formula gives 1. -/
theorem C5_witness :
    1 ≤ 2 ∧ 1 ≤ 1 ∧ 2 < U64MOD ∧ (2 - 1) * 1 < U64MOD ∧
    (get_paginated_expenses 2 1 stEx3 =
        ((allExpenses stEx3).drop ((2 - 1) * 1)).take 1 ∧
      (get_paginated_expenses 2 1 stEx3).length =
        min 1 ((allExpenses stEx3).length - (2 - 1) * 1)) :=
  ⟨by decide, by decide, by decide, by decide,
   C5_pagination 2 1 stEx3 (by decide) (by decide) (by decide) (by decide)⟩

/-- C5, counterexample to the unbounded claim: at `page = 2^32 + 1`,
`per_page = 2^32` on a one-record store the offset `(page-1)*per_page`
overflows `usize` to `0`, so the call returns 1 record where the claimed
formula `min(per_page, max(0, N - (page-1)*per_page))` gives 0. -/
theorem C5_counterexample :
    (get_paginated_expenses (2 ^ 32 + 1) (2 ^ 32) stEx1).length = 1 ∧
    min (2 ^ 32) ((allExpenses stEx1).length - ((2 ^ 32 + 1) - 1) * 2 ^ 32) = 0 := by
  constructor
  · have hs : (subOneWrap (2 ^ 32 + 1) * 2 ^ 32) % U64MOD = 0 := by
      norm_num [subOneWrap, U64MOD]
    unfold get_paginated_expenses
    rw [hs]
    show (((allExpenses stEx1).drop 0).take (2 ^ 32)).length = 1
    rw [List.drop_zero, List.length_take]
    norm_num [allExpenses, stEx1]
  · norm_num [allExpenses, stEx1]

/-- Modelled from the spec: the record codec. The source's `Storable`
implementation delegates to the external candid library
(`Encode!`/`Decode!`), whose code is not part of this repository; spec §4.1
only requires a deterministic, total, round-trip-safe binary encoding of the
record. This development realises one concretely: a little-endian base-128
varint for unbounded naturals. -/
def encodeNat (n : Nat) : List Nat :=
  if n < 128 then [n] else (128 + n % 128) :: encodeNat (n / 128)
termination_by n
decreasing_by exact Nat.div_lt_self (by omega) (by norm_num)

/-- Varint decoder; `none` models a decode failure on malformed bytes. -/
def decodeNat : List Nat → Option (Nat × List Nat)
  | [] => none
  | b :: bs =>
    if b < 128 then some (b, bs)
    else
      match decodeNat bs with
      | none => none
      | some (n, r) => some ((b - 128) + 128 * n, r)

/-- Signed integers: a sign byte followed by the varint magnitude. -/
def encodeInt (i : Int) : List Nat :=
  (if i < 0 then 1 else 0) :: encodeNat i.natAbs

/-- Decoder for `encodeInt`. -/
def decodeInt : List Nat → Option (Int × List Nat)
  | [] => none
  | s :: bs =>
    match decodeNat bs with
    | none => none
    | some (n, r) => some (if s = 1 then -(n : Int) else (n : Int), r)

/-- Rationals: numerator then denominator. -/
def encodeRat (q : ℚ) : List Nat :=
  encodeInt q.num ++ encodeNat q.den

/-- Decoder for `encodeRat`. -/
def decodeRat (bs : List Nat) : Option (ℚ × List Nat) :=
  match decodeInt bs with
  | none => none
  | some (n, r1) =>
    match decodeNat r1 with
    | none => none
    | some (d, r2) => some ((n : ℚ) / (d : ℚ), r2)

/-- Doubles: a tag byte distinguishing `nan` from a rational value. -/
def encodeF64 : F64 → List Nat
  | .nan => [0]
  | .num q => 1 :: encodeRat q

/-- Decoder for `encodeF64`. -/
def decodeF64 : List Nat → Option (F64 × List Nat)
  | [] => none
  | t :: bs =>
    if t = 0 then some (.nan, bs)
    else
      match decodeRat bs with
      | none => none
      | some (q, r) => some (.num q, r)

/-- Optional timestamps: a presence tag then the value. -/
def encodeOptNat : Option Nat → List Nat
  | none => [0]
  | some n => 1 :: encodeNat n

/-- Decoder for `encodeOptNat`. -/
def decodeOptNat : List Nat → Option (Option Nat × List Nat)
  | [] => none
  | t :: bs =>
    if t = 0 then some (none, bs)
    else
      match decodeNat bs with
      | none => none
      | some (n, r) => some (some n, r)

/-- Character payload of a string, one varint code point per character. -/
def encodeChars (cs : List Char) : List Nat :=
  cs.foldr (fun c acc => encodeNat c.toNat ++ acc) []

/-- Decoder reading a known number of characters. -/
def decodeChars : Nat → List Nat → Option (List Char × List Nat)
  | 0, bs => some ([], bs)
  | k + 1, bs =>
    match decodeNat bs with
    | none => none
    | some (n, r) =>
      match decodeChars k r with
      | none => none
      | some (cs, r2) => some (Char.ofNat n :: cs, r2)

/-- Strings: length-prefixed code points. -/
def encodeString (s : String) : List Nat :=
  encodeNat s.data.length ++ encodeChars s.data

/-- Decoder for `encodeString`. -/
def decodeString (bs : List Nat) : Option (String × List Nat) :=
  match decodeNat bs with
  | none => none
  | some (len, r) =>
    match decodeChars len r with
    | none => none
    | some (cs, r2) => some (String.mk cs, r2)

/-- Modelled from the spec: `Storable::to_bytes` for `Expense` — field
encodings in declaration order. -/
def to_bytes (e : Expense) : List Nat :=
  encodeNat e.id ++ (encodeString e.description ++ (encodeF64 e.amount ++
    (encodeNat e.date ++ (encodeNat e.created_at ++ encodeOptNat e.updated_at))))

/-- Field-by-field decoder for `to_bytes`. -/
def decodeExpense (bs : List Nat) : Option (Expense × List Nat) :=
  match decodeNat bs with
  | none => none
  | some (id, r1) =>
    match decodeString r1 with
    | none => none
    | some (desc, r2) =>
      match decodeF64 r2 with
      | none => none
      | some (amt, r3) =>
        match decodeNat r3 with
        | none => none
        | some (date, r4) =>
          match decodeNat r4 with
          | none => none
          | some (cat, r5) =>
            match decodeOptNat r5 with
            | none => none
            | some (upd, r6) => some (⟨id, desc, amt, date, cat, upd⟩, r6)

/-- Modelled from the spec: `Storable::from_bytes` for `Expense`; `none`
models the `unwrap` panic on malformed bytes, which the store never
produces. -/
def from_bytes (bs : List Nat) : Option Expense :=
  match decodeExpense bs with
  | some (e, _) => some e
  | none => none

/-- Varint round trip. -/
theorem decodeNat_encodeNat (n : Nat) : ∀ rest : List Nat,
    decodeNat (encodeNat n ++ rest) = some (n, rest) := by
  induction n using Nat.strong_induction_on with
  | _ n ih =>
    intro rest
    rw [encodeNat]
    by_cases h : n < 128
    · simp [h, decodeNat]
    · rw [if_neg h]
      have hrec := ih (n / 128) (Nat.div_lt_self (by omega) (by norm_num)) rest
      rw [List.cons_append, decodeNat, if_neg (by omega), hrec]
      simp [Nat.mod_add_div]

/-- Integer round trip. -/
theorem decodeInt_encodeInt (i : Int) (rest : List Nat) :
    decodeInt (encodeInt i ++ rest) = some (i, rest) := by
  unfold encodeInt
  by_cases h : i < 0
  · rw [if_pos h, List.cons_append, decodeInt, decodeNat_encodeNat]
    have hval : -((i.natAbs : Int)) = i := by omega
    dsimp only
    rw [if_pos rfl, hval]
  · rw [if_neg h, List.cons_append, decodeInt, decodeNat_encodeNat]
    have hval : ((i.natAbs : Int)) = i := by omega
    dsimp only
    rw [if_neg (by omega : ¬(0 : Nat) = 1), hval]

/-- Rational round trip. -/
theorem decodeRat_encodeRat (q : ℚ) (rest : List Nat) :
    decodeRat (encodeRat q ++ rest) = some (q, rest) := by
  unfold encodeRat decodeRat
  rw [List.append_assoc, decodeInt_encodeInt]
  dsimp only
  rw [decodeNat_encodeNat]
  dsimp only
  rw [Rat.num_div_den]

/-- Double round trip. -/
theorem decodeF64_encodeF64 (v : F64) (rest : List Nat) :
    decodeF64 (encodeF64 v ++ rest) = some (v, rest) := by
  cases v with
  | nan => rfl
  | num q =>
    show decodeF64 (1 :: (encodeRat q ++ rest)) = some (.num q, rest)
    rw [decodeF64, if_neg (by omega : ¬(1 : Nat) = 0), decodeRat_encodeRat]

/-- Optional-timestamp round trip. -/
theorem decodeOptNat_encodeOptNat (v : Option Nat) (rest : List Nat) :
    decodeOptNat (encodeOptNat v ++ rest) = some (v, rest) := by
  cases v with
  | none => rfl
  | some n =>
    show decodeOptNat (1 :: (encodeNat n ++ rest)) = some (some n, rest)
    rw [decodeOptNat, if_neg (by omega : ¬(1 : Nat) = 0), decodeNat_encodeNat]

/-- Character-list round trip. -/
theorem decodeChars_encodeChars (cs : List Char) : ∀ rest : List Nat,
    decodeChars cs.length (encodeChars cs ++ rest) = some (cs, rest) := by
  induction cs with
  | nil => intro rest; rfl
  | cons c cst ih =>
    intro rest
    show decodeChars (cst.length + 1)
      ((encodeNat c.toNat ++ encodeChars cst) ++ rest) = some (c :: cst, rest)
    rw [List.append_assoc, decodeChars, decodeNat_encodeNat]
    dsimp only
    rw [ih rest]
    dsimp only
    rw [Char.ofNat_toNat]

/-- String round trip. -/
theorem decodeString_encodeString (s : String) (rest : List Nat) :
    decodeString (encodeString s ++ rest) = some (s, rest) := by
  unfold encodeString decodeString
  rw [List.append_assoc, decodeNat_encodeNat]
  dsimp only
  rw [decodeChars_encodeChars]

/-- Record round trip with a remainder. -/
theorem decodeExpense_to_bytes (e : Expense) (rest : List Nat) :
    decodeExpense (to_bytes e ++ rest) = some (e, rest) := by
  unfold to_bytes decodeExpense
  simp only [List.append_assoc]
  rw [decodeNat_encodeNat]
  dsimp only
  rw [decodeString_encodeString]
  dsimp only
  rw [decodeF64_encodeF64]
  dsimp only
  rw [decodeNat_encodeNat]
  dsimp only
  rw [decodeNat_encodeNat]
  dsimp only
  rw [decodeOptNat_encodeOptNat]

/-- C2: decoding the bytes produced by encoding any record yields that
record back; both directions are total functions. -/
theorem C2_roundtrip (e : Expense) : from_bytes (to_bytes e) = some e := by
  unfold from_bytes
  have h := decodeExpense_to_bytes e []
  rw [List.append_nil] at h
  rw [h]

/-- The sort comparator of the source, `b.amount.partial_cmp(&a.amount)`
(descending by amount); `none` where the source's `unwrap` would panic. -/
def expCmp (a b : Expense) : Option Ordering := cmpF64 b.amount a.amount

/-- Insert into a sorted prefix, stopping before the first element the
comparator does not place strictly earlier; `none` propagates a panicking
comparison. Together with `sortOpt` this models the stable `Vec::sort_by`
of the source. -/
def insOpt (x : Expense) : List Expense → Option (List Expense)
  | [] => some [x]
  | y :: ys =>
    match expCmp x y with
    | none => none
    | some .gt => (insOpt x ys).map (y :: ·)
    | some _ => some (x :: y :: ys)

/-- Stable insertion sort under the partial comparator. -/
def sortOpt : List Expense → Option (List Expense)
  | [] => some []
  | x :: xs => (sortOpt xs).bind (insOpt x)

/-- Query `get_expenses_sorted_by_amount` of the source: collect the full
iteration and `sort_by` descending amount; `none` models the comparator
panic on a `nan` amount. -/
def get_expenses_sorted_by_amount (st : CanisterState) : Option (List Expense) :=
  sortOpt (allExpenses st)

/-- The order C8 claims: strictly larger amount first, ties by ascending
id. -/
def sortRel (a b : Expense) : Prop :=
  cmpF64 b.amount a.amount = some .lt ∨ (a.amount = b.amount ∧ a.id < b.id)

/-- Store invariant maintained by the program: keys strictly ascending and
every record stored under its own id. -/
def WF (st : CanisterState) : Prop :=
  st.storage.Pairwise (fun a b => a.1 < b.1) ∧ ∀ kv ∈ st.storage, kv.1 = kv.2.id

/-- `cmpQ` yields `lt` exactly on smaller firsts. -/
theorem cmpQ_eq_lt (a b : ℚ) : cmpQ a b = .lt ↔ a < b := by
  constructor
  · intro h
    unfold cmpQ at h
    split_ifs at h with h1 h2
    exact h1
  · intro h
    unfold cmpQ
    rw [if_pos h]

/-- `cmpQ` yields `gt` exactly on larger firsts. -/
theorem cmpQ_eq_gt (a b : ℚ) : cmpQ a b = .gt ↔ b < a := by
  constructor
  · intro h
    unfold cmpQ at h
    split_ifs at h with h1 h2
    exact h2
  · intro h
    unfold cmpQ
    rw [if_neg (asymm h), if_pos h]

/-- `cmpQ` yields `eq` exactly on equal arguments. -/
theorem cmpQ_eq_eq (a b : ℚ) : cmpQ a b = .eq ↔ a = b := by
  constructor
  · intro h
    unfold cmpQ at h
    split_ifs at h with h1 h2
    exact le_antisymm (not_lt.mp h2) (not_lt.mp h1)
  · intro h
    subst h
    unfold cmpQ
    rw [if_neg (lt_irrefl a), if_neg (lt_irrefl a)]

/-- A defined comparison means both operands are numeric. -/
theorem cmpF64_some (u v : F64) (o : Ordering) (h : cmpF64 u v = some o) :
    ∃ a b, u = .num a ∧ v = .num b ∧ cmpQ a b = o := by
  cases u with
  | nan => simp [cmpF64] at h
  | num a =>
    cases v with
    | nan => simp [cmpF64] at h
    | num b => exact ⟨a, b, rfl, rfl, by simpa [cmpF64] using h⟩

/-- Comparing anything against `nan` on the right is undefined. -/
theorem cmpF64_nan_right (u : F64) : cmpF64 u .nan = none := by
  cases u <;> rfl

/-- Comparing `nan` on the left is undefined. -/
theorem cmpF64_nan_left (v : F64) : cmpF64 .nan v = none := rfl

/-- The claimed order is transitive. -/
theorem sortRel_trans (a b c : Expense) (h1 : sortRel a b) (h2 : sortRel b c) :
    sortRel a c := by
  rcases h1 with h1 | ⟨he1, hi1⟩
  · obtain ⟨qb, qa, hb, ha, hq⟩ := cmpF64_some _ _ _ h1
    rcases h2 with h2 | ⟨he2, hi2⟩
    · obtain ⟨qc, qb', hc, hb', hq'⟩ := cmpF64_some _ _ _ h2
      have hbb : qb' = qb := by
        rw [hb] at hb'
        exact (F64.num.injEq _ _).mp hb'.symm
      left
      rw [ha, hc]
      show some (cmpQ qc qa) = some .lt
      have : qc < qa := lt_trans (hbb ▸ (cmpQ_eq_lt qc qb').mp hq') ((cmpQ_eq_lt qb qa).mp hq)
      rw [(cmpQ_eq_lt qc qa).mpr this]
    · left
      rw [← he2]
      exact h1
  · rcases h2 with h2 | ⟨he2, hi2⟩
    · left
      rw [he1]
      exact h2
    · exact Or.inr ⟨he1.trans he2, hi1.trans hi2⟩

/-- Inserting a record whose id is below everything present preserves
sortedness, succeeds on `nan`-free input, and permutes. -/
theorem insOpt_spec (x : Expense) (l : List Expense)
    (hx : x.amount ≠ F64.nan) (hl : ∀ y ∈ l, y.amount ≠ F64.nan)
    (hid : ∀ y ∈ l, x.id < y.id) (hs : l.Pairwise sortRel) :
    ∃ m, insOpt x l = some m ∧ m.Perm (x :: l) ∧ m.Pairwise sortRel := by
  induction l with
  | nil => exact ⟨[x], rfl, List.Perm.refl _, List.pairwise_singleton _ _⟩
  | cons y ys ih =>
    obtain ⟨qx, hqx⟩ : ∃ q, x.amount = .num q := by
      cases hxa : x.amount
      · exact ⟨_, rfl⟩
      · exact absurd hxa hx
    obtain ⟨qy, hqy⟩ : ∃ q, y.amount = .num q := by
      cases hya : y.amount
      · exact ⟨_, rfl⟩
      · exact absurd hya (hl y (List.mem_cons_self y ys))
    have hcmp : expCmp x y = some (cmpQ qy qx) := by
      unfold expCmp
      rw [hqx, hqy]
      rfl
    cases hord : cmpQ qy qx with
    | lt =>
      refine ⟨x :: y :: ys, ?_, List.Perm.refl _, ?_⟩
      · unfold insOpt
        rw [hcmp, hord]
      · have hxy : sortRel x y := by
          left
          rw [hqx, hqy]
          show some (cmpQ qy qx) = some .lt
          rw [hord]
        refine List.Pairwise.cons ?_ hs
        intro z hz
        rcases List.mem_cons.mp hz with rfl | hz2
        · exact hxy
        · exact sortRel_trans x y z hxy (List.rel_of_pairwise_cons hs hz2)
    | eq =>
      refine ⟨x :: y :: ys, ?_, List.Perm.refl _, ?_⟩
      · unfold insOpt
        rw [hcmp, hord]
      · have hxy : sortRel x y := by
          right
          refine ⟨?_, hid y (List.mem_cons_self y ys)⟩
          rw [hqx, hqy, (cmpQ_eq_eq qy qx).mp hord]
        refine List.Pairwise.cons ?_ hs
        intro z hz
        rcases List.mem_cons.mp hz with rfl | hz2
        · exact hxy
        · exact sortRel_trans x y z hxy (List.rel_of_pairwise_cons hs hz2)
    | gt =>
      obtain ⟨m', hm', hperm', hpair'⟩ :=
        ih (fun z hz => hl z (List.mem_cons_of_mem y hz))
           (fun z hz => hid z (List.mem_cons_of_mem y hz))
           (List.Pairwise.of_cons hs)
      refine ⟨y :: m', ?_, ?_, ?_⟩
      · unfold insOpt
        rw [hcmp, hord, hm']
        rfl
      · exact (hperm'.cons y).trans (List.Perm.swap x y ys)
      · refine List.Pairwise.cons ?_ hpair'
        intro z hz
        have hz' : z ∈ x :: ys := (hperm'.mem_iff).mp hz
        rcases List.mem_cons.mp hz' with rfl | hz2
        · left
          rw [hqx, hqy]
          show some (cmpQ qx qy) = some .lt
          rw [(cmpQ_eq_lt qx qy).mpr ((cmpQ_eq_gt qy qx).mp hord)]
        · exact List.rel_of_pairwise_cons hs hz2

/-- Sorting a `nan`-free list whose ids ascend succeeds and yields a
permutation ordered by descending amount with ties by ascending id. -/
theorem sortOpt_spec (l : List Expense) (hl : ∀ y ∈ l, y.amount ≠ F64.nan)
    (hids : l.Pairwise fun a b => a.id < b.id) :
    ∃ m, sortOpt l = some m ∧ m.Perm l ∧ m.Pairwise sortRel := by
  induction l with
  | nil => exact ⟨[], rfl, List.Perm.refl _, List.Pairwise.nil⟩
  | cons x xs ih =>
    obtain ⟨m', hm', hperm', hpair'⟩ :=
      ih (fun y hy => hl y (List.mem_cons_of_mem x hy)) (List.Pairwise.of_cons hids)
    have hid' : ∀ y ∈ m', x.id < y.id := fun y hy =>
      List.rel_of_pairwise_cons hids ((hperm'.mem_iff).mp hy)
    obtain ⟨m, hm, hpermm, hpairm⟩ :=
      insOpt_spec x m' (hl x (List.mem_cons_self x xs))
        (fun y hy => hl y (List.mem_cons_of_mem x ((hperm'.mem_iff).mp hy)))
        hid' hpair'
    refine ⟨m, ?_, hpermm.trans (hperm'.cons x), hpairm⟩
    rw [sortOpt, hm']
    exact hm

/-- C8: on a well-formed store with no `nan` amount, the sort returns all
stored records (a permutation of the full iteration), ordered by amount
descending with ties broken by ascending id — the tie order follows from
the stability of `sort_by` over the ascending-id iteration. -/
theorem C8_sorted_desc_stable (st : CanisterState) (hwf : WF st)
    (hnan : ∀ e ∈ allExpenses st, e.amount ≠ F64.nan) :
    ∃ l, get_expenses_sorted_by_amount st = some l ∧
      l.Perm (allExpenses st) ∧ l.Pairwise sortRel := by
  apply sortOpt_spec _ hnan
  have h1 : st.storage.Pairwise fun a b => a.2.id < b.2.id := by
    refine List.Pairwise.imp_of_mem ?_ hwf.1
    intro a b ha hb hr
    rw [← hwf.2 a ha, ← hwf.2 b hb]
    exact hr
  unfold allExpenses
  exact (List.pairwise_map).mpr h1

/-- C8, witness: the three-record store with amounts 5, 15, 10. -/
theorem C8_witness :
    WF stEx3 ∧ (∀ e ∈ allExpenses stEx3, e.amount ≠ F64.nan) ∧
    (∃ l, get_expenses_sorted_by_amount stEx3 = some l ∧
      l.Perm (allExpenses stEx3) ∧ l.Pairwise sortRel) :=
  ⟨⟨by decide, by decide⟩, by decide,
   C8_sorted_desc_stable stEx3 ⟨by decide, by decide⟩ (by decide)⟩

/-- A successful insertion adds exactly one element. -/
theorem insOpt_length (x : Expense) : ∀ (l m : List Expense),
    insOpt x l = some m → m.length = l.length + 1 := by
  intro l
  induction l with
  | nil =>
    intro m hm
    simp only [insOpt, Option.some.injEq] at hm
    rw [← hm]
    rfl
  | cons y ys ih =>
    intro m hm
    unfold insOpt at hm
    cases hc : expCmp x y with
    | none => rw [hc] at hm; simp at hm
    | some o =>
      rw [hc] at hm
      cases o with
      | lt =>
        simp only [Option.some.injEq] at hm
        rw [← hm]
        rfl
      | eq =>
        simp only [Option.some.injEq] at hm
        rw [← hm]
        rfl
      | gt =>
        simp only [Option.map_eq_some'] at hm
        obtain ⟨m', hm', rfl⟩ := hm
        simp [ih m' hm']

/-- A successful sort preserves the length. -/
theorem sortOpt_length : ∀ (l m : List Expense), sortOpt l = some m →
    m.length = l.length := by
  intro l
  induction l with
  | nil =>
    intro m hm
    simp only [sortOpt, Option.some.injEq] at hm
    rw [← hm]
  | cons x xs ih =>
    intro m hm
    rw [sortOpt] at hm
    cases hs : sortOpt xs with
    | none => rw [hs] at hm; simp at hm
    | some m' =>
      rw [hs] at hm
      simp only [Option.some_bind] at hm
      rw [insOpt_length x m' m hm, ih m' hs, List.length_cons]

/-- Sorting any store that holds at least two records, one of them with a
`nan` amount, drives the comparator into an undefined (`none`) comparison:
the `unwrap` in the source panics. -/
theorem sortOpt_none_of_nan : ∀ l : List Expense, 2 ≤ l.length →
    ∀ e ∈ l, e.amount = F64.nan → sortOpt l = none := by
  intro l
  induction l with
  | nil => intro h2; simp at h2
  | cons x xs ih =>
    intro h2 e he hn
    cases xs with
    | nil => simp at h2
    | cons y ys =>
      rw [sortOpt]
      by_cases hxnan : x.amount = F64.nan
      · cases hsx : sortOpt (y :: ys) with
        | none => rfl
        | some m =>
          have hlen := sortOpt_length _ _ hsx
          cases m with
          | nil => simp at hlen
          | cons h t =>
            simp only [Option.some_bind]
            unfold insOpt
            have hc : expCmp x h = none := by
              unfold expCmp
              rw [hxnan, cmpF64_nan_right]
            rw [hc]
      · have hexs : e ∈ y :: ys := by
          rcases List.mem_cons.mp he with rfl | h
          · exact absurd hn hxnan
          · exact h
        by_cases h2xs : 2 ≤ (y :: ys).length
        · rw [ih h2xs e hexs hn]
          rfl
        · have hys : ys = [] := by
            cases ys with
            | nil => rfl
            | cons a as => simp at h2xs
          subst hys
          have hey : e = y := by
            rcases List.mem_cons.mp hexs with rfl | h
            · rfl
            · simp at h
          subst hey
          have h1 : sortOpt [e] = some [e] := rfl
          rw [h1]
          simp only [Option.some_bind]
          unfold insOpt
          have hc : expCmp x e = none := by
            unfold expCmp
            rw [hn, cmpF64_nan_left]
          rw [hc]

/-- Payload with a `nan` amount used by the C9 counterexample. -/
def nanPayload : ExpensePayload := ⟨"gas", F64.nan, 1⟩

/-- The record created from `nanPayload` at time 5 in the initial state. -/
def nanRec : Expense := ⟨0, "gas", F64.nan, 1, 5, none⟩

/-- A `nan` amount passes the shared validation whenever the description is
non-empty: the `amount <= 0.0` comparison is false for `nan`. -/
theorem validatePayload_nan (p : ExpensePayload) (hnan : p.amount = F64.nan)
    (hdesc : p.description.isEmpty = false) : validatePayload p = none := by
  unfold validatePayload
  rw [hnan]
  show (if F64.leb F64.nan (F64.num 0) = true then _ else
    if p.description.isEmpty = true then _ else none) = none
  rw [if_neg (by simp [F64.leb]), if_neg (by simp [hdesc])]

/-- C9, counterexample to the claim as stated: the `nan` payload is indeed
accepted by both `add_expense` (first conjunct) and `update_expense` on the
created record (second conjunct), but on the one-record `nan` store the
sort performs no comparison and returns normally instead of panicking — the
claimed panic on every `nan`-containing store is wrong for singletons. -/
theorem C9_counterexample :
    (add_expense 5 nanPayload initState).1 = .ok nanRec ∧
    (update_expense 6 0 ⟨"fuel", F64.nan, 2⟩ (add_expense 5 nanPayload initState).2).1 =
      .ok ⟨0, "fuel", F64.nan, 2, 5, some 6⟩ ∧
    get_expenses_sorted_by_amount (add_expense 5 nanPayload initState).2 =
      some [nanRec] := by
  refine ⟨rfl, rfl, rfl⟩

/-- C9 (amended): `add_expense` and `update_expense` both accept a payload
whose amount is `nan` whenever its description is non-empty (the
`amount <= 0.0` check is false for `nan`), storing a `nan` record; and
`get_expenses_sorted_by_amount` panics (undefined comparison) on every
store holding at least two records one of which has a `nan` amount — but
not on a singleton `nan` store. -/
theorem C9_nan_accept_sort_panic (st : CanisterState) :
    (∀ (now : Nat) (p : ExpensePayload), p.amount = F64.nan →
      p.description.isEmpty = false →
      (add_expense now p st).1 =
        .ok ⟨st.counter, p.description, F64.nan, p.date, now, none⟩) ∧
    (∀ (now id : Nat) (p : ExpensePayload) (old : Expense), p.amount = F64.nan →
      p.description.isEmpty = false → mapGet id st.storage = some old →
      (update_expense now id p st).1 =
        .ok ⟨old.id, p.description, F64.nan, p.date, old.created_at, some now⟩) ∧
    (2 ≤ (allExpenses st).length →
      ∀ e ∈ allExpenses st, e.amount = F64.nan →
      get_expenses_sorted_by_amount st = none) := by
  refine ⟨?_, ?_, ?_⟩
  · intro now p hnan hdesc
    rw [add_expense_eq_of_valid now p st (validatePayload_nan p hnan hdesc), hnan]
  · intro now id p old hnan hdesc hget
    simp only [update_expense, validatePayload_nan p hnan hdesc, hget]
    rw [hnan]
  · intro h2 e he hn
    unfold get_expenses_sorted_by_amount
    exact sortOpt_none_of_nan _ h2 e he hn
